import Mathlib

/-!
Verification of the AHP operations agent core: the Google Sheets row-store
adapter (`google-sheets.js`), the tool router (`tool-executor.js`) and the
bounded agent loop (`run-agent.js`).

Modelling conventions:
* JavaScript strings are Lean `String`s; `localeCompare` is modelled as the
  lexicographic order on the underlying character list, and `toLowerCase`
  as ASCII case folding on character codes.
* A JavaScript object is an insertion-ordered association list in which a
  repeated assignment replaces the previous binding (`objSet`), and
  property lookup returns the bound value or `undefined` (`Option`).
* The model call and the tool adapters are external: the loop is verified
  for an arbitrary response stream `respAt : Nat → ModelResponse` and an
  arbitrary executor `exec` that either returns a payload or throws.
-/

namespace AhpAgent

/-- ASCII case folding of one character code, modelling the effect of
JavaScript `toLowerCase` on the A–Z range. -/
def lowerCode (n : Nat) : Nat :=
  if 65 ≤ n ∧ n ≤ 90 then n + 32 else n

/-- Case-folded character codes of a string, modelling
`String(x).toLowerCase()` for comparison purposes. -/
def jsLower (s : String) : List Nat :=
  s.data.map (fun c => lowerCode c.toNat)

/-- Assignment `o[k] = v` on a JavaScript object: replaces the existing
binding in place, otherwise appends a new binding. -/
def objSet (o : List (String × String)) (k v : String) : List (String × String) :=
  if o.any (fun p => p.1 == k) then
    o.map (fun p => if p.1 == k then (k, v) else p)
  else
    o ++ [(k, v)]

/-- Property lookup on a JavaScript object. -/
def objGet (o : List (String × String)) (k : String) : Option String :=
  (o.find? (fun p => p.1 == k)).map Prod.snd

/-- One data row as built by `readRows`: the 1-based physical row number
(the `_rowNumber` annotation) together with the header-keyed object. -/
structure RowRec where
  rowNumber : Nat
  obj : List (String × String)
deriving DecidableEq

/-- The `headers.forEach((header, colIdx) => obj[header] = row[colIdx] ?? '')`
loop of `readRows`, with `i` the current column index. -/
def buildObjAux (raw : List String) : List (String × String) → Nat → List String → List (String × String)
  | o, _, [] => o
  | o, i, h :: hs => buildObjAux raw (objSet o h (raw.getD i "")) (i + 1) hs

/-- The header-keyed object for one raw sheet row. -/
def buildObj (headers raw : List String) : List (String × String) :=
  buildObjAux raw [] 0 headers

/-- Conversion of the i-th raw data row (0-based) to a row record; data
starts at physical row 2 because row 1 holds the headers. -/
def toRowRec (headers : List String) (i : Nat) (raw : List String) : RowRec :=
  ⟨i + 2, buildObj headers raw⟩

/-- All row records of a sheet body, in physical order. -/
def buildRows (headers : List String) (rawRows : List (List String)) : List RowRec :=
  (rawRows.enum.map fun p => toRowRec headers p.1 p.2)

/-- The expression `String(r[k] ?? '')` used by the filter and sort steps:
lookup in the row object, defaulting to the empty string. -/
def getVal (r : RowRec) (k : String) : String :=
  (objGet r.obj k).getD ""

/-- The filter step of `readRows`: applied only when `filter_column` is
truthy (a non-empty string) and `filter_value` is neither `undefined` nor
`null`; keeps rows whose case-folded column value equals the case-folded
filter value. -/
def filterStep (fc fv : Option String) (rows : List RowRec) : List RowRec :=
  match fc, fv with
  | some c, some v =>
      if c = "" then rows
      else rows.filter (fun r => jsLower (getVal r c) == jsLower v)
  | _, _ => rows

/-- Sort key of a row for column `c`: the character list of
`String(r[c] ?? '')`, compared lexicographically (the model of
`localeCompare`). -/
def sortKey (c : String) (r : RowRec) : List Char :=
  (getVal r c).data

/-- Comparator relation for `sort_order === 'asc'`: comparator value ≤ 0. -/
def ascRel (c : String) (a b : RowRec) : Prop :=
  sortKey c a ≤ sortKey c b

/-- Comparator relation for the descending branch (negated comparator ≤ 0). -/
def descRel (c : String) (a b : RowRec) : Prop :=
  sortKey c b ≤ sortKey c a

instance (c : String) : DecidableRel (ascRel c) :=
  fun a b => inferInstanceAs (Decidable (sortKey c a ≤ sortKey c b))

instance (c : String) : DecidableRel (descRel c) :=
  fun a b => inferInstanceAs (Decidable (sortKey c b ≤ sortKey c a))

/-- The sort step of `readRows`: applied only when `sort_by` is truthy;
`Array.prototype.sort` with a consistent comparator is the stable sort of
that comparator, modelled by `List.insertionSort`. -/
def sortStep (sb : Option String) (so : String) (rows : List RowRec) : List RowRec :=
  match sb with
  | none => rows
  | some c =>
      if c = "" then rows
      else if so = "asc" then List.insertionSort (ascRel c) rows
      else List.insertionSort (descRel c) rows

/-- Options of `readRows` after destructuring (`limit` defaults to 10 and
`sort_order` to `'desc'` at the call boundary). -/
structure ReadOptions where
  filter_column : Option String
  filter_value : Option String
  limit : Nat
  sort_by : Option String
  sort_order : String
deriving DecidableEq

/-- The object returned by `readRows`. -/
structure ReadResult where
  rows : List (List (String × String))
  total_found : Nat
  row_numbers : List Nat
deriving DecidableEq

/-- `readRows(sheetName, options)` for a sheet whose cached header row is
`headers` and whose body is `rawRows`.  Mirrors the source: filter, sort,
`total_found` from the full set, truncation by `slice(0, limit)`, then the
`_rowNumber` field is stripped from the returned objects.  Note the source
also computes `row_numbers` over the full set, but the object literal it
returns binds `row_numbers` to `cleanRowNumbers`, the numbers of the
truncated rows. -/
def readRows (headers : List String) (rawRows : List (List String)) (opts : ReadOptions) : ReadResult :=
  let rows0 := buildRows headers rawRows
  let rows1 := filterStep opts.filter_column opts.filter_value rows0
  let rows2 := sortStep opts.sort_by opts.sort_order rows1
  let total_found := rows2.length
  let limited := rows2.take opts.limit
  ⟨limited.map RowRec.obj, total_found, limited.map RowRec.rowNumber⟩

/-- Lookup `values[k]` on the argument object of `appendRow`/`updateRow`:
`none` means the key is absent, `some none` a key bound to `null`. -/
def jsGet (values : List (String × Option String)) (k : String) : Option (Option String) :=
  (values.find? (fun p => p.1 == k)).map Prod.snd

/-- The `headers.map(...)` of `appendRow`: builds the value array in cached
header order, with absent or null entries becoming the empty string. -/
def buildRowData (headers : List String) (values : List (String × Option String)) : List String :=
  headers.map fun h =>
    match jsGet values h with
    | some (some v) => v
    | _ => ""

/-- `parseInt` on a non-empty digit string. -/
def digitsVal (ds : List Char) : Nat :=
  ds.foldl (fun n c => n * 10 + (c.toNat - 48)) 0

/-- The `updatedRange.match(/:?[A-Z]+(\d+)$/)` extraction of `appendRow`:
the regex matches exactly when the string ends in at least one uppercase
letter followed by at least one digit, and then captures the whole
trailing digit run. -/
def parseRowNumber (s : String) : Option Nat :=
  let rev := s.data.reverse
  let ds := rev.takeWhile (fun c => c.isDigit)
  let rest := rev.dropWhile (fun c => c.isDigit)
  if ds.isEmpty then none
  else
    match rest with
    | [] => none
    | c :: _ => if 'A' ≤ c ∧ c ≤ 'Z' then some (digitsVal ds.reverse) else none

/-- The object returned by `appendRow`. -/
structure AppendResult where
  success : Bool
  row_number : Option Nat
  sheet_name : String
deriving DecidableEq

/-- `appendRow(sheetName, values)` for cached headers `headers`, with the
backend call abstracted by the `updatedRange` string it reports: returns
the row actually sent to the store together with the result object. -/
def appendRow (sheetName : String) (headers : List String) (values : List (String × Option String)) (updatedRange : String) : List String × AppendResult :=
  (buildRowData headers values, ⟨true, parseRowNumber updatedRange, sheetName⟩)

/-- `Array.prototype.indexOf` restricted to string arrays, with `none` for
the not-found (-1) case. -/
def jsIndexOf (a : String) : List String → Option Nat
  | [] => none
  | h :: t => if h == a then some 0 else (jsIndexOf a t).map (· + 1)

/-- The body of the `while (n >= 0)` loop of `colIndexToLetter`, with
explicit fuel (structural recursion): the character appended last is
`(n % 26) + 65` and the loop continues with `Math.floor(n / 26) - 1`
while that is non-negative.  `n + 1` units of fuel always suffice since
the loop variable strictly decreases. -/
def colLettersAux : Nat → Nat → List Char
  | 0, n => [Char.ofNat (n % 26 + 65)]
  | fuel + 1, n =>
      if n < 26 then [Char.ofNat (n % 26 + 65)]
      else colLettersAux fuel (n / 26 - 1) ++ [Char.ofNat (n % 26 + 65)]

/-- The character list produced by the `colIndexToLetter` loop. -/
def colLetters (n : Nat) : List Char :=
  colLettersAux n n

/-- `colIndexToLetter(index)`: 0-based column index to A1 letters. -/
def colIndexToLetter (n : Nat) : String :=
  String.mk (colLetters n)

/-- Modelled from the spec: the standard spreadsheet column label of the
1-indexed column `m`, written in bijective base-26 over A–Z (A, B, …, Z,
AA, AB, …).  `specColLabel 0` is the empty digit string. -/
def specColLabel (m : Nat) : List Char :=
  if m = 0 then []
  else specColLabel ((m - 1) / 26) ++ [Char.ofNat ((m - 1) % 26 + 65)]
termination_by m
decreasing_by
  have : (m - 1) / 26 ≤ m - 1 := Nat.div_le_self _ _
  omega

/-- One cell write issued by `updateRow`, addressed by column letter and
1-based row number. -/
structure CellWrite where
  col : String
  row : Nat
  value : String
deriving DecidableEq

/-- The object returned by `updateRow`. -/
structure UpdateResult where
  success : Bool
  row_number : Nat
  updated_columns : List String
deriving DecidableEq

/-- The `for (const [header, value] of Object.entries(values))` loop of
`updateRow`: resolves each header through the cached header list, skips
unknown headers, and otherwise records one cell write (with
`String(value ?? '')`) and one `updated_columns` entry, in entry order. -/
def updateRowAux (headers : List String) (rowNumber : Nat) : List (String × Option String) → List CellWrite × List String
  | [] => ([], [])
  | p :: rest =>
      match jsIndexOf p.1 headers with
      | none => updateRowAux headers rowNumber rest
      | some i =>
          let out := updateRowAux headers rowNumber rest
          (⟨colIndexToLetter i, rowNumber, p.2.getD ""⟩ :: out.1, p.1 :: out.2)

/-- `updateRow(sheetName, rowNumber, values)` for cached headers `headers`:
returns the issued cell writes together with the result object. -/
def updateRow (headers : List String) (rowNumber : Nat) (values : List (String × Option String)) : List CellWrite × UpdateResult :=
  let out := updateRowAux headers rowNumber values
  (out.1, ⟨true, rowNumber, out.2⟩)

/-- A `tool_use` content block of a model response. -/
structure ToolUseBlock where
  id : String
  name : String
  input : String
deriving DecidableEq

/-- A content block of a model response: free text or a tool invocation. -/
inductive Block where
  | text (s : String)
  | toolUse (b : ToolUseBlock)
deriving DecidableEq

/-- One model response: content blocks plus the stop reason. -/
structure ModelResponse where
  content : List Block
  stop_reason : String
deriving DecidableEq

/-- `response.content.filter(b => b.type === 'text')`, projected to the
text payloads. -/
def textsOf (r : ModelResponse) : List String :=
  r.content.filterMap fun b =>
    match b with
    | .text s => some s
    | .toolUse _ => none

/-- `response.content.filter(b => b.type === 'tool_use')`. -/
def toolUsesOf (r : ModelResponse) : List ToolUseBlock :=
  r.content.filterMap fun b =>
    match b with
    | .text _ => none
    | .toolUse t => some t

/-- Outcome of one `executeTool` call: a returned payload, or a thrown
error with its message. -/
inductive ExecResult where
  | ok (payload : String)
  | thrown (message : String)
deriving DecidableEq

/-- The tool executor viewed from the loop: an arbitrary external function
from tool name and input to an outcome. -/
abbrev ExecFn := String → String → ExecResult

/-- One entry of the `actions_taken` ledger: on success the `result` field
is set, on a thrown error the `error` field is set instead. -/
structure ActionRecord where
  tool : String
  input : String
  result : Option String
  error : Option String
deriving DecidableEq

/-- The content stringified into one `tool_result` block: the successful
payload, or the error-shaped object `{error: message}`. -/
inductive ToolFeedback where
  | success (payload : String)
  | errorShaped (message : String)
deriving DecidableEq

/-- One `tool_result` entry sent back to the model. -/
structure ToolResultMsg where
  tool_use_id : String
  content : ToolFeedback
deriving DecidableEq

/-- The Action Record the loop is expected to produce for one invocation. -/
def expectedRecord (exec : ExecFn) (b : ToolUseBlock) : ActionRecord :=
  match exec b.name b.input with
  | .ok p => ⟨b.name, b.input, some p, none⟩
  | .thrown m => ⟨b.name, b.input, none, some m⟩

/-- The feedback entry the loop is expected to send back for one
invocation. -/
def expectedFeedback (exec : ExecFn) (b : ToolUseBlock) : ToolResultMsg :=
  match exec b.name b.input with
  | .ok p => ⟨b.id, .success p⟩
  | .thrown m => ⟨b.id, .errorShaped m⟩

/-- The `for (const block of toolUseBlocks)` loop of `runAgent`: each
invocation is executed inside `try/catch`, recorded in `actions_taken`,
and answered with a `tool_result`, in issuance order. -/
def processBatch (exec : ExecFn) : List ToolUseBlock → List ActionRecord × List ToolResultMsg
  | [] => ([], [])
  | b :: bs =>
      let res := exec b.name b.input
      let record : ActionRecord :=
        match res with
        | .ok p => ⟨b.name, b.input, some p, none⟩
        | .thrown m => ⟨b.name, b.input, none, some m⟩
      let feedback : ToolResultMsg :=
        match res with
        | .ok p => ⟨b.id, .success p⟩
        | .thrown m => ⟨b.id, .errorShaped m⟩
      let rest := processBatch exec bs
      (record :: rest.1, feedback :: rest.2)

/-- `MAX_ITERATIONS` of `run-agent.js`. -/
def MAX_ITERATIONS : Nat := 30

/-- The summary update of one iteration: the text blocks of the response
replace the running summary when there is at least one of them. -/
def candStep (s : String) (r : ModelResponse) : String :=
  let tbs := textsOf r
  if tbs.isEmpty then s else String.intercalate "\n" tbs

/-- The `while (iteration < MAX_ITERATIONS)` loop of `runAgent`, with
`fuel` the number of remaining permitted iterations; returns the final
iteration counter, summary text and action ledger. -/
def agentLoop (exec : ExecFn) (respAt : Nat → ModelResponse) : Nat → Nat → String → List ActionRecord → Nat × String × List ActionRecord
  | 0, iteration, summary, actions => (iteration, summary, actions)
  | fuel + 1, iteration, summary, actions =>
      let resp := respAt iteration
      let summary1 := candStep summary resp
      if resp.stop_reason = "end_turn" then (iteration + 1, summary1, actions)
      else if resp.stop_reason = "tool_use" then
        agentLoop exec respAt fuel (iteration + 1) summary1
          (actions ++ (processBatch exec (toolUsesOf resp)).1)
      else (iteration + 1, summary1, actions)

/-- The fixed placeholder summary of `runAgent`. -/
def noSummaryText : String := "Agent completed (no summary text returned)"

/-- The value returned by `runAgent`. -/
structure RunResult where
  summary : String
  actions_taken : List ActionRecord
  iteration_count : Nat
deriving DecidableEq

/-- `runAgent(formData)`, with the model call abstracted as the response
stream `respAt` (the response consumed by iteration `i + 1` is `respAt i`)
and tool execution abstracted as `exec`. -/
def runAgent (exec : ExecFn) (respAt : Nat → ModelResponse) : RunResult :=
  let out := agentLoop exec respAt MAX_ITERATIONS 0 "" []
  ⟨if out.2.1 = "" then noSummaryText else out.2.1, out.2.2, out.1⟩

/-- Modelled from the spec: the newline-joined text blocks of the most
recent among the first `n` responses that contains at least one text
block, if any (the running summary candidate). -/
def lastTextJoin (respAt : Nat → ModelResponse) : Nat → Option String
  | 0 => none
  | n + 1 =>
      let tbs := textsOf (respAt n)
      if tbs.isEmpty then lastTextJoin respAt n
      else some (String.intercalate "\n" tbs)

/-- Modelled from the spec: the condition of C10, an updated-range string
that ends in column letters followed by digits. -/
def EndsInColRow (s : String) : Prop :=
  ∃ p ls ds, s.data = p ++ ls ++ ds ∧ ls ≠ [] ∧ ds ≠ [] ∧
    (∀ c ∈ ls, 'A' ≤ c ∧ c ≤ 'Z') ∧ (∀ c ∈ ds, c.isDigit = true)

/-- Concrete row used to witness the case-insensitive filter claim. -/
def rowC6 : RowRec := ⟨2, [("Name", "Acme Corp")]⟩

/-- Concrete options used to witness the truncation-fields claim. -/
def optsC3 : ReadOptions := ⟨none, none, 10, none, "desc"⟩

/-- Concrete tie rows for the sort-reversal counterexample. -/
def rowsC4 : List RowRec := [⟨2, [("K", "x"), ("V", "1")]⟩, ⟨3, [("K", "x"), ("V", "2")]⟩]

/-- Concrete distinct-key rows for the sort-reversal witness. -/
def rowsC4w : List RowRec := [⟨2, [("K", "b")]⟩, ⟨3, [("K", "a")]⟩]

/-- Concrete executor whose second tool throws, for the batch-record
witness. -/
def wExecC1 : ExecFn := fun n _ => if n = "tool2" then .thrown "boom" else .ok "fine"

/-- Concrete response stream issuing a batch of three tool calls, for the
batch-record witness. -/
def wRespC1 : Nat → ModelResponse := fun i =>
  if i = 0 then
    ⟨[Block.toolUse ⟨"a", "tool1", "x"⟩, Block.toolUse ⟨"b", "tool2", "y"⟩,
      Block.toolUse ⟨"c", "tool3", "z"⟩], "tool_use"⟩
  else ⟨[Block.text "done"], "end_turn"⟩

/-- Concrete executor that always succeeds, for the iteration-ceiling
witness. -/
def wExecC2 : ExecFn := fun _ _ => .ok "ok"

/-- Concrete response stream that never stops issuing tool calls, for the
iteration-ceiling witness. -/
def wRespC2 : Nat → ModelResponse := fun _ => ⟨[Block.toolUse ⟨"i", "t", "x"⟩], "tool_use"⟩

/-- Concrete executor for the summary counterexample. -/
def cxExecC9 : ExecFn := fun _ _ => .ok "r"

/-- Concrete response stream whose second response carries one empty text
block, for the summary counterexample. -/
def cxRespC9 : Nat → ModelResponse := fun i =>
  if i = 0 then ⟨[Block.text "hello", Block.toolUse ⟨"a", "t", "x"⟩], "tool_use"⟩
  else ⟨[Block.text ""], "end_turn"⟩

/-! Helper lemmas about the row-store embedding. -/

theorem objSet_keys (o : List (String × String)) (k v : String) (q : String × String) (hq : q ∈ objSet o k v) :
    q.1 = k ∨ q ∈ o := by
  unfold objSet at hq
  split at hq
  · obtain ⟨p, hp, hpq⟩ := List.mem_map.mp hq
    by_cases hpk : (p.1 == k) = true
    · left
      rw [← hpq]
      simp [hpk]
    · right
      rw [← hpq]
      simpa [hpk] using hp
  · rcases List.mem_append.mp hq with h | h
    · right
      exact h
    · left
      simp only [List.mem_singleton] at h
      rw [h]

theorem buildObjAux_keys (raw : List String) (P : String → Prop) :
    ∀ (hs : List String) (o : List (String × String)) (i : Nat),
      (∀ q ∈ o, P q.1) → (∀ h ∈ hs, P h) → ∀ q ∈ buildObjAux raw o i hs, P q.1 := by
  intro hs
  induction hs with
  | nil =>
      intro o i ho _ q hq
      exact ho q hq
  | cons h t ih =>
      intro o i ho hhs q hq
      refine ih (objSet o h (raw.getD i "")) (i + 1) ?_ (fun x hx => hhs x (List.mem_cons_of_mem _ hx)) q hq
      intro q2 hq2
      rcases objSet_keys o h _ q2 hq2 with he | hin
      · rw [he]
        exact hhs h (List.mem_cons_self _ _)
      · exact ho q2 hin

theorem buildObj_keys (headers raw : List String) : ∀ q ∈ buildObj headers raw, q.1 ∈ headers :=
  buildObjAux_keys raw (· ∈ headers) headers [] 0 (by simp) (fun h hh => hh)

theorem filterStep_mem_subset (fc fv : Option String) (rows : List RowRec) (r : RowRec) (hr : r ∈ filterStep fc fv rows) :
    r ∈ rows := by
  cases fc with
  | none =>
      cases fv with
      | none => exact hr
      | some v => exact hr
  | some c =>
      cases fv with
      | none => exact hr
      | some v =>
          have hr2 : r ∈ if c = "" then rows else rows.filter fun r2 => jsLower (getVal r2 c) == jsLower v := hr
          split at hr2
          · exact hr2
          · exact (List.mem_filter.mp hr2).1

theorem sortStep_mem (sb : Option String) (so : String) (rows : List RowRec) (r : RowRec) :
    r ∈ sortStep sb so rows ↔ r ∈ rows := by
  cases sb with
  | none => exact Iff.rfl
  | some c =>
      show (r ∈ if c = "" then rows
            else if so = "asc" then List.insertionSort (ascRel c) rows
            else List.insertionSort (descRel c) rows) ↔ r ∈ rows
      split
      · exact Iff.rfl
      · split
        · exact (List.perm_insertionSort (ascRel c) rows).mem_iff
        · exact (List.perm_insertionSort (descRel c) rows).mem_iff

/-- C6: for every `readRows` call where both `filter_column` (a truthy,
i.e. non-empty, column name) and `filter_value` are given, a row is kept
by the filter step if and only if the string coercion of its value in that
column equals the string coercion of the filter value under
case-insensitive comparison; `total_found` then counts exactly the
matching rows. -/
theorem readRows_filter_case_insensitive (c v : String) (rows : List RowRec) (r : RowRec) (hc : c ≠ "") :
    (r ∈ filterStep (some c) (some v) rows ↔ r ∈ rows ∧ jsLower (getVal r c) = jsLower v) ∧
    ∀ (headers : List String) (rawRows : List (List String)) (lim : Nat) (so : String),
      (readRows headers rawRows ⟨some c, some v, lim, none, so⟩).total_found =
        ((buildRows headers rawRows).filter fun r2 => jsLower (getVal r2 c) == jsLower v).length := by
  constructor
  · show (r ∈ if c = "" then rows else rows.filter fun r2 => jsLower (getVal r2 c) == jsLower v) ↔ _
    rw [if_neg hc]
    simp [List.mem_filter]
  · intro headers rawRows lim so
    show (if c = "" then buildRows headers rawRows
          else (buildRows headers rawRows).filter fun r2 => jsLower (getVal r2 c) == jsLower v).length =
      ((buildRows headers rawRows).filter fun r2 => jsLower (getVal r2 c) == jsLower v).length
    rw [if_neg hc]

/-- Witness for C6: a row whose column value is `"Acme Corp"` is kept by
the filter value `"acme corp"`. -/
theorem readRows_filter_case_insensitive_witness :
    rowC6 ∈ filterStep (some "Name") (some "acme corp") [rowC6] :=
  (readRows_filter_case_insensitive "Name" "acme corp" [rowC6] rowC6 (by decide)).1.mpr
    ⟨by decide, by decide⟩

/-- C3 counterexample: on a two-row sheet read with `limit = 1`, the full
filtered/sorted set has row numbers `[2, 3]` and `total_found = 2`, but
the returned `row_numbers` is the truncated `[2]`, not the full `[2, 3]`
the claim asserts. -/
theorem readRows_row_numbers_truncated_cx :
    (sortStep none "desc" (filterStep none none (buildRows ["A"] [["x"], ["y"]]))).map RowRec.rowNumber = [2, 3] ∧
    (readRows ["A"] [["x"], ["y"]] ⟨none, none, 1, none, "desc"⟩).total_found = 2 ∧
    (readRows ["A"] [["x"], ["y"]] ⟨none, none, 1, none, "desc"⟩).row_numbers = [2] ∧
    (readRows ["A"] [["x"], ["y"]] ⟨none, none, 1, none, "desc"⟩).row_numbers ≠ [2, 3] := by
  decide

/-- C3 as amended: `total_found` describes the full filtered/sorted row
set before truncation, while both the returned `rows` and the returned
`row_numbers` describe only the truncated prefix of at most `limit` rows
(in 1:1 correspondence), and the internal row-number annotation is
stripped: every key of every returned row object is a cached header. -/
theorem readRows_truncation_fields (headers : List String) (rawRows : List (List String)) (opts : ReadOptions) :
    (readRows headers rawRows opts).total_found =
      (sortStep opts.sort_by opts.sort_order (filterStep opts.filter_column opts.filter_value (buildRows headers rawRows))).length ∧
    (readRows headers rawRows opts).rows =
      ((sortStep opts.sort_by opts.sort_order (filterStep opts.filter_column opts.filter_value (buildRows headers rawRows))).take opts.limit).map RowRec.obj ∧
    (readRows headers rawRows opts).row_numbers =
      ((sortStep opts.sort_by opts.sort_order (filterStep opts.filter_column opts.filter_value (buildRows headers rawRows))).take opts.limit).map RowRec.rowNumber ∧
    (readRows headers rawRows opts).rows.length ≤ opts.limit ∧
    (readRows headers rawRows opts).rows.length = (readRows headers rawRows opts).row_numbers.length ∧
    ∀ row ∈ (readRows headers rawRows opts).rows, ∀ q ∈ row, q.1 ∈ headers := by
  refine ⟨rfl, rfl, rfl, ?_, ?_, ?_⟩
  · show (((sortStep opts.sort_by opts.sort_order (filterStep opts.filter_column opts.filter_value (buildRows headers rawRows))).take opts.limit).map RowRec.obj).length ≤ opts.limit
    rw [List.length_map, List.length_take]
    exact min_le_left _ _
  · show (((sortStep opts.sort_by opts.sort_order (filterStep opts.filter_column opts.filter_value (buildRows headers rawRows))).take opts.limit).map RowRec.obj).length =
      (((sortStep opts.sort_by opts.sort_order (filterStep opts.filter_column opts.filter_value (buildRows headers rawRows))).take opts.limit).map RowRec.rowNumber).length
    rw [List.length_map, List.length_map]
  · intro row hrow q hq
    obtain ⟨rr, hrr, hrq⟩ := List.mem_map.mp hrow
    have h2 := List.mem_of_mem_take hrr
    have h3 := (sortStep_mem opts.sort_by opts.sort_order _ rr).mp h2
    have h4 := filterStep_mem_subset opts.filter_column opts.filter_value _ rr h3
    obtain ⟨p, _, hpr⟩ := List.mem_map.mp h4
    have hobj : row = buildObj headers p.2 := by
      rw [← hrq, ← hpr]
      rfl
    rw [hobj] at hq
    exact buildObj_keys headers p.2 q hq

/-- Witness for C3 as amended, at a one-row sheet. -/
theorem readRows_truncation_fields_witness :
    (readRows ["H"] [["v"]] optsC3).total_found = 1 ∧ ("H" : String) ∈ ["H"] :=
  ⟨Eq.trans (readRows_truncation_fields ["H"] [["v"]] optsC3).1 (by decide),
   (readRows_truncation_fields ["H"] [["v"]] optsC3).2.2.2.2.2 [("H", "v")] (by decide) ("H", "v") (by decide)⟩

theorem jsGet_filter_mem (headers : List String) (values : List (String × Option String)) (h : String) (hh : h ∈ headers) :
    jsGet (values.filter fun p => decide (p.1 ∈ headers)) h = jsGet values h := by
  induction values with
  | nil => rfl
  | cons p rest ih =>
      by_cases hp : p.1 = h
      · subst hp
        rw [List.filter_cons, if_pos (by simpa using hh)]
        simp [jsGet, List.find?]
      · have hfind : (p.1 == h) = false := by simpa using hp
        rw [List.filter_cons]
        split
        · simp only [jsGet, List.find?, hfind] at ih ⊢
          exact ih
        · simp only [jsGet, List.find?, hfind] at ih ⊢
          exact ih

theorem jsIndexOf_eq_none_iff (a : String) (l : List String) :
    jsIndexOf a l = none ↔ a ∉ l := by
  induction l with
  | nil => simp [jsIndexOf]
  | cons h t ih =>
      by_cases hha : h = a
      · subst hha
        simp [jsIndexOf]
      · have hbeq : (h == a) = false := by simpa using hha
        have hne : a ≠ h := fun hc => hha hc.symm
        simp [jsIndexOf, hbeq, Option.map_eq_none', ih, List.mem_cons, hne]

theorem updateRowAux_eq (headers : List String) (rowNumber : Nat) (values : List (String × Option String)) :
    updateRowAux headers rowNumber values =
      (values.filterMap fun p =>
        (jsIndexOf p.1 headers).map fun i => CellWrite.mk (colIndexToLetter i) rowNumber (p.2.getD ""),
       (values.filter fun p => decide (p.1 ∈ headers)).map Prod.fst) := by
  induction values with
  | nil => rfl
  | cons p rest ih =>
      rw [List.filterMap_cons, List.filter_cons]
      cases hidx : jsIndexOf p.1 headers with
      | none =>
          have hmem : p.1 ∉ headers := (jsIndexOf_eq_none_iff p.1 headers).mp hidx
          rw [updateRowAux, hidx, ih]
          simp [hmem]
      | some i =>
          have hmem : p.1 ∈ headers := by
            by_contra hmem
            rw [(jsIndexOf_eq_none_iff p.1 headers).mpr hmem] at hidx
            exact Option.noConfusion hidx
          rw [updateRowAux, hidx, ih]
          simp [hmem]

/-- C5: for every `appendRow(sheetName, values)` call, the row sent to the
store is a value array in the cached header order: it has one entry per
cached header, the entry for header `h` is the value bound to `h` in
`values` with absent, undefined or null entries becoming the empty string,
and keys of `values` matching no cached header have no effect on the row
(they are dropped without error). -/
theorem appendRow_header_order (sheetName : String) (headers : List String) (values : List (String × Option String)) (updatedRange : String) :
    ((appendRow sheetName headers values updatedRange).1).length = headers.length ∧
    (∀ i : Nat, ((appendRow sheetName headers values updatedRange).1)[i]? =
      (headers[i]?).map fun h =>
        match jsGet values h with
        | some (some v) => v
        | _ => "") ∧
    (appendRow sheetName headers (values.filter fun p => decide (p.1 ∈ headers)) updatedRange).1 =
      (appendRow sheetName headers values updatedRange).1 := by
  refine ⟨by simp [appendRow, buildRowData], ?_, ?_⟩
  · intro i
    simp [appendRow, buildRowData, List.getElem?_map]
  · show buildRowData headers _ = buildRowData headers values
    unfold buildRowData
    refine List.map_congr_left fun h hh => ?_
    rw [jsGet_filter_mem headers values h hh]

theorem resolvedWrites_length (headers : List String) (rowNumber : Nat) (values : List (String × Option String)) :
    (values.filterMap fun p =>
      (jsIndexOf p.1 headers).map fun i => CellWrite.mk (colIndexToLetter i) rowNumber (p.2.getD "")).length =
    (values.filter fun p => decide (p.1 ∈ headers)).length := by
  induction values with
  | nil => rfl
  | cons p rest ih =>
      rw [List.filterMap_cons, List.filter_cons]
      cases hidx : jsIndexOf p.1 headers with
      | none =>
          have hmem : p.1 ∉ headers := (jsIndexOf_eq_none_iff p.1 headers).mp hidx
          simpa [hmem] using ih
      | some i =>
          have hmem : p.1 ∈ headers := by
            by_contra hmem
            rw [(jsIndexOf_eq_none_iff p.1 headers).mpr hmem] at hidx
            exact Option.noConfusion hidx
          simpa [hmem] using ih

/-- C7: for every `updateRow(sheetName, rowNumber, values)` call, exactly
the headers of `values` that occur in the cached header list produce a
cell write — one write per resolved header, addressed by the column letter
of its cached position and by `rowNumber` — and exactly those headers are
listed in `updated_columns` in entry order; headers not in the cache cause
no write and no error, and the call returns success with the given row
number. -/
theorem updateRow_known_headers_only (headers : List String) (rowNumber : Nat) (values : List (String × Option String)) :
    (updateRow headers rowNumber values).2.success = true ∧
    (updateRow headers rowNumber values).2.row_number = rowNumber ∧
    (updateRow headers rowNumber values).2.updated_columns =
      (values.filter fun p => decide (p.1 ∈ headers)).map Prod.fst ∧
    (updateRow headers rowNumber values).1 =
      (values.filterMap fun p =>
        (jsIndexOf p.1 headers).map fun i => CellWrite.mk (colIndexToLetter i) rowNumber (p.2.getD "")) ∧
    (updateRow headers rowNumber values).1.length =
      (updateRow headers rowNumber values).2.updated_columns.length := by
  have heq := updateRowAux_eq headers rowNumber values
  refine ⟨rfl, rfl, ?_, ?_, ?_⟩
  · show (updateRowAux headers rowNumber values).2 = _
    rw [heq]
  · show (updateRowAux headers rowNumber values).1 = _
    rw [heq]
  · show (updateRowAux headers rowNumber values).1.length = (updateRowAux headers rowNumber values).2.length
    rw [heq, List.length_map]
    exact resolvedWrites_length headers rowNumber values

theorem colLettersAux_spec (fuel : Nat) : ∀ n : Nat, n ≤ fuel → colLettersAux fuel n = specColLabel (n + 1) := by
  induction fuel with
  | zero =>
      intro n hn
      have hn0 : n = 0 := by omega
      subst hn0
      have h0 : specColLabel 0 = [] := by
        rw [specColLabel]
        simp
      rw [specColLabel, if_neg (by omega)]
      simp [colLettersAux, h0]
  | succ fuel ih =>
      intro n hn
      by_cases h26 : n < 26
      · have hdiv : n / 26 = 0 := Nat.div_eq_of_lt h26
        have h0 : specColLabel 0 = [] := by
          rw [specColLabel]
          simp
        rw [colLettersAux, if_pos h26, specColLabel, if_neg (by omega)]
        simp only [Nat.add_sub_cancel, hdiv, h0, List.nil_append]
      · have hdivpos : 1 ≤ n / 26 := (Nat.one_le_div_iff (by omega)).mpr (by omega)
        have hlt : n / 26 < n := Nat.div_lt_self (by omega) (by omega)
        have harg : n / 26 - 1 + 1 = n / 26 := by omega
        rw [colLettersAux, if_neg h26, ih (n / 26 - 1) (by omega), harg]
        conv_rhs => rw [specColLabel]
        rw [if_neg (by omega : ¬ n + 1 = 0)]
        simp only [Nat.add_sub_cancel]

/-- C8: `colIndexToLetter` computes the standard spreadsheet column label
in bijective base-26 over A–Z with 0-indexed input: for every `n`, the
result is the bijective base-26 digit string of `n + 1`, and in particular
0 maps to A, 25 to Z, 26 to AA and 27 to AB. -/
theorem colIndexToLetter_bijective_base26 (n : Nat) :
    colIndexToLetter n = String.mk (specColLabel (n + 1)) ∧
    colIndexToLetter 0 = "A" ∧ colIndexToLetter 25 = "Z" ∧
    colIndexToLetter 26 = "AA" ∧ colIndexToLetter 27 = "AB" := by
  refine ⟨?_, by decide, by decide, by decide, by decide⟩
  unfold colIndexToLetter colLetters
  rw [colLettersAux_spec n n (Nat.le_refl n)]

theorem parseRowNumber_some_ends (s : String) (n : Nat) (h : parseRowNumber s = some n) :
    EndsInColRow s := by
  simp only [parseRowNumber] at h
  split at h
  · exact Option.noConfusion h
  · next hne =>
      split at h
      · exact Option.noConfusion h
      · next c t hrest =>
          split at h
          · next hupper =>
              refine ⟨t.reverse, [c], (s.data.reverse.takeWhile fun ch => ch.isDigit).reverse, ?_, by simp, ?_, ?_, ?_⟩
              · have h1 : (List.takeWhile (fun ch => ch.isDigit) s.data.reverse) ++ (c :: t) = s.data.reverse := by
                  rw [← hrest]
                  exact List.takeWhile_append_dropWhile _ _
                have h2 : ((List.takeWhile (fun ch => ch.isDigit) s.data.reverse) ++ (c :: t)).reverse = s.data := by
                  rw [h1, List.reverse_reverse]
                conv_lhs => rw [← h2]
                simp [List.reverse_append]
              · simp only [ne_eq, List.reverse_eq_nil_iff]
                intro hnil
                rw [hnil] at hne
                exact hne rfl
              · intro ch hch
                simp only [List.mem_singleton] at hch
                subst hch
                exact hupper
              · intro ch hch
                rw [List.mem_reverse] at hch
                exact List.mem_takeWhile_imp hch
          · exact Option.noConfusion h

theorem not_ends_of_no_upper (s : String) (hall : ∀ c ∈ s.data, ¬('A' ≤ c ∧ c ≤ 'Z')) :
    ¬ EndsInColRow s := by
  rintro ⟨p, ls, ds, heq, hls, hds, hlet, hdig⟩
  obtain ⟨c, hc⟩ := List.exists_mem_of_ne_nil ls hls
  have hcs : c ∈ s.data := by
    rw [heq]
    simp [hc]
  exact hall c hcs (hlet c hc)

/-- C10: whenever the backend's reported `updatedRange` string does not
end in column letters followed by digits, the row number cannot be parsed
and `appendRow` still returns `success: true` with `row_number` equal to
null, without raising an error. -/
theorem appendRow_null_row_number (sheetName : String) (headers : List String) (values : List (String × Option String)) (updatedRange : String) (h : ¬ EndsInColRow updatedRange) :
    (appendRow sheetName headers values updatedRange).2.success = true ∧
    (appendRow sheetName headers values updatedRange).2.row_number = none := by
  refine ⟨rfl, ?_⟩
  show parseRowNumber updatedRange = none
  cases hp : parseRowNumber updatedRange with
  | none => rfl
  | some n => exact absurd (parseRowNumber_some_ends updatedRange n hp) h

/-- Witness for C10 at the concrete unparsable range string `"123"`. -/
theorem appendRow_null_row_number_witness :
    (appendRow "Service_Log" ["A"] [] "123").2.success = true ∧
    (appendRow "Service_Log" ["A"] [] "123").2.row_number = none :=
  appendRow_null_row_number "Service_Log" ["A"] [] "123"
    (not_ends_of_no_upper "123" (by decide))

/-! Lemmas about the agent loop. -/

theorem processBatch_eq_map (exec : ExecFn) (blocks : List ToolUseBlock) :
    processBatch exec blocks = (blocks.map (expectedRecord exec), blocks.map (expectedFeedback exec)) := by
  induction blocks with
  | nil => rfl
  | cons b bs ih =>
      cases h : exec b.name b.input with
      | ok p => simp [processBatch, ih, expectedRecord, expectedFeedback, h]
      | thrown m => simp [processBatch, ih, expectedRecord, expectedFeedback, h]

theorem agentLoop_iteration_ge (exec : ExecFn) (respAt : Nat → ModelResponse) :
    ∀ (fuel it : Nat) (s : String) (acc : List ActionRecord),
      it ≤ (agentLoop exec respAt fuel it s acc).1 := by
  intro fuel
  induction fuel with
  | zero =>
      intro it s acc
      exact Nat.le_refl it
  | succ fuel ih =>
      intro it s acc
      simp only [agentLoop]
      split
      · exact Nat.le_succ it
      · split
        · exact Nat.le_trans (Nat.le_succ it) (ih (it + 1) _ _)
        · exact Nat.le_succ it

theorem agentLoop_iteration_ge1 (exec : ExecFn) (respAt : Nat → ModelResponse) :
    ∀ (fuel it : Nat) (s : String) (acc : List ActionRecord),
      it + 1 ≤ (agentLoop exec respAt (fuel + 1) it s acc).1 := by
  intro fuel it s acc
  simp only [agentLoop]
  split
  · exact Nat.le_refl _
  · split
    · exact agentLoop_iteration_ge exec respAt fuel (it + 1) _ _
    · exact Nat.le_refl _

theorem agentLoop_iteration_le (exec : ExecFn) (respAt : Nat → ModelResponse) :
    ∀ (fuel it : Nat) (s : String) (acc : List ActionRecord),
      (agentLoop exec respAt fuel it s acc).1 ≤ it + fuel := by
  intro fuel
  induction fuel with
  | zero =>
      intro it s acc
      exact Nat.le_refl it
  | succ fuel ih =>
      intro it s acc
      simp only [agentLoop]
      split
      · omega
      · split
        · have := ih (it + 1) (candStep s (respAt it)) (acc ++ (processBatch exec (toolUsesOf (respAt it))).1)
          omega
        · omega

theorem agentLoop_all_tool_use (exec : ExecFn) (respAt : Nat → ModelResponse) :
    ∀ (fuel it : Nat) (s : String) (acc : List ActionRecord),
      (∀ i, it ≤ i → i < it + fuel → (respAt i).stop_reason = "tool_use") →
      (agentLoop exec respAt fuel it s acc).1 = it + fuel := by
  intro fuel
  induction fuel with
  | zero =>
      intro it s acc _
      rfl
  | succ fuel ih =>
      intro it s acc hall
      have hstop : (respAt it).stop_reason = "tool_use" := hall it (Nat.le_refl it) (by omega)
      simp only [agentLoop]
      rw [if_neg (by rw [hstop]; decide), if_pos hstop]
      rw [ih (it + 1) (candStep s (respAt it)) (acc ++ (processBatch exec (toolUsesOf (respAt it))).1)
        (fun i h1 h2 => hall i (by omega) (by omega))]
      omega

theorem agentLoop_actions_prefix (exec : ExecFn) (respAt : Nat → ModelResponse) :
    ∀ (fuel it : Nat) (s : String) (acc : List ActionRecord),
      ∃ rest, (agentLoop exec respAt fuel it s acc).2.2 = acc ++ rest := by
  intro fuel
  induction fuel with
  | zero =>
      intro it s acc
      exact ⟨[], (List.append_nil acc).symm⟩
  | succ fuel ih =>
      intro it s acc
      simp only [agentLoop]
      split
      · exact ⟨[], (List.append_nil acc).symm⟩
      · split
        · obtain ⟨rest, hrest⟩ :=
            ih (it + 1) (candStep s (respAt it)) (acc ++ (processBatch exec (toolUsesOf (respAt it))).1)
          exact ⟨(processBatch exec (toolUsesOf (respAt it))).1 ++ rest, by rw [hrest, List.append_assoc]⟩
        · exact ⟨[], (List.append_nil acc).symm⟩

theorem candStep_lastTextJoin (respAt : Nat → ModelResponse) (n : Nat) :
    candStep ((lastTextJoin respAt n).getD "") (respAt n) = (lastTextJoin respAt (n + 1)).getD "" := by
  by_cases h : (textsOf (respAt n)).isEmpty
  · simp [candStep, lastTextJoin, h]
  · simp [candStep, lastTextJoin, h]

theorem agentLoop_summary (exec : ExecFn) (respAt : Nat → ModelResponse) :
    ∀ (fuel it : Nat) (acc : List ActionRecord),
      (agentLoop exec respAt fuel it ((lastTextJoin respAt it).getD "") acc).2.1 =
        (lastTextJoin respAt ((agentLoop exec respAt fuel it ((lastTextJoin respAt it).getD "") acc).1)).getD "" := by
  intro fuel
  induction fuel with
  | zero =>
      intro it acc
      rfl
  | succ fuel ih =>
      intro it acc
      simp only [agentLoop]
      rw [candStep_lastTextJoin]
      split
      · rfl
      · split
        · exact ih (it + 1) _
        · rfl

/-- C2: for every run of the agent loop, with the model call treated as an
arbitrary external response stream, the loop performs at most 30
iterations; and when no response ever stops the loop early (every response
requests tools), the run still returns normally with `iteration_count`
equal to 30 and with the best-available accumulated summary text (the
running candidate, or the placeholder if no text was ever produced). -/
theorem agent_iteration_ceiling (exec : ExecFn) (respAt : Nat → ModelResponse) :
    (runAgent exec respAt).iteration_count ≤ MAX_ITERATIONS ∧
    ((∀ i, i < MAX_ITERATIONS → (respAt i).stop_reason = "tool_use") →
      (runAgent exec respAt).iteration_count = MAX_ITERATIONS ∧
      (runAgent exec respAt).summary =
        (if (lastTextJoin respAt MAX_ITERATIONS).getD "" = "" then noSummaryText
         else (lastTextJoin respAt MAX_ITERATIONS).getD "")) := by
  constructor
  · show (agentLoop exec respAt MAX_ITERATIONS 0 "" []).1 ≤ MAX_ITERATIONS
    simpa using agentLoop_iteration_le exec respAt MAX_ITERATIONS 0 "" []
  · intro hall
    have hit : (agentLoop exec respAt MAX_ITERATIONS 0 "" []).1 = MAX_ITERATIONS := by
      simpa using agentLoop_all_tool_use exec respAt MAX_ITERATIONS 0 "" []
        (fun i h1 h2 => hall i (by simpa using h2))
    refine ⟨hit, ?_⟩
    show (if (agentLoop exec respAt MAX_ITERATIONS 0 "" []).2.1 = "" then noSummaryText
          else (agentLoop exec respAt MAX_ITERATIONS 0 "" []).2.1) = _
    have h0 : ((lastTextJoin respAt 0).getD "") = "" := rfl
    have hs := agentLoop_summary exec respAt MAX_ITERATIONS 0 []
    rw [h0] at hs
    rw [hs, hit]

/-- Witness for C2: a stream that always requests tools drives the run to
exactly the 30-iteration ceiling. -/
theorem agent_iteration_ceiling_witness :
    (runAgent wExecC2 wRespC2).iteration_count = MAX_ITERATIONS :=
  ((agent_iteration_ceiling wExecC2 wRespC2).2 (fun _ _ => rfl)).1

/-- C1: every batch of tool invocations in one model response produces
exactly one Action Record per invocation, in issuance order, with the
error field set and an error-shaped result fed back exactly for the
invocations whose execution throws (later invocations of the batch still
execute); and when the first response is a tool batch the run continues
past it to completion instead of aborting: the processed batch is the
prefix of the final ledger and at least one further iteration runs. -/
theorem tool_batch_action_records (exec : ExecFn) (respAt : Nat → ModelResponse) (blocks : List ToolUseBlock) :
    processBatch exec blocks = (blocks.map (expectedRecord exec), blocks.map (expectedFeedback exec)) ∧
    ((respAt 0).stop_reason = "tool_use" →
      (runAgent exec respAt).actions_taken.take (toolUsesOf (respAt 0)).length =
        (toolUsesOf (respAt 0)).map (expectedRecord exec) ∧
      2 ≤ (runAgent exec respAt).iteration_count) := by
  refine ⟨processBatch_eq_map exec blocks, fun h0 => ?_⟩
  have hneq : ¬ (respAt 0).stop_reason = "end_turn" := by
    rw [h0]
    decide
  have hstep : agentLoop exec respAt MAX_ITERATIONS 0 "" [] =
      agentLoop exec respAt 29 1 (candStep "" (respAt 0))
        ([] ++ (processBatch exec (toolUsesOf (respAt 0))).1) := by
    show (if (respAt 0).stop_reason = "end_turn" then (1, candStep "" (respAt 0), ([] : List ActionRecord))
          else if (respAt 0).stop_reason = "tool_use" then
            agentLoop exec respAt 29 1 (candStep "" (respAt 0))
              ([] ++ (processBatch exec (toolUsesOf (respAt 0))).1)
          else (1, candStep "" (respAt 0), ([] : List ActionRecord))) = _
    rw [if_neg hneq, if_pos h0]
  constructor
  · show (agentLoop exec respAt MAX_ITERATIONS 0 "" []).2.2.take (toolUsesOf (respAt 0)).length = _
    rw [hstep]
    obtain ⟨rest, hrest⟩ := agentLoop_actions_prefix exec respAt 29 1 (candStep "" (respAt 0))
      ([] ++ (processBatch exec (toolUsesOf (respAt 0))).1)
    rw [hrest, List.nil_append, processBatch_eq_map exec (toolUsesOf (respAt 0))]
    show (((toolUsesOf (respAt 0)).map (expectedRecord exec) ++ rest).take (toolUsesOf (respAt 0)).length) = _
    rw [← List.length_map (toolUsesOf (respAt 0)) (expectedRecord exec)]
    exact List.take_left _ _
  · show 2 ≤ (agentLoop exec respAt MAX_ITERATIONS 0 "" []).1
    rw [hstep]
    exact agentLoop_iteration_ge1 exec respAt 28 1 _ _

/-- Witness for C1: a batch of three invocations whose second throws still
yields all three Action Records in order, and the run continues. -/
theorem tool_batch_action_records_witness :
    (runAgent wExecC1 wRespC1).actions_taken.take 3 =
      [⟨"tool1", "x", some "fine", none⟩, ⟨"tool2", "y", none, some "boom"⟩,
       ⟨"tool3", "z", some "fine", none⟩] ∧
    2 ≤ (runAgent wExecC1 wRespC1).iteration_count := by
  have h := (tool_batch_action_records wExecC1 wRespC1 []).2 rfl
  exact ⟨Eq.trans h.1 (by decide), h.2⟩

/-- C9 counterexample: in a run whose first response carries the text
`"hello"` and whose second response carries a single empty text block, the
summary candidate (the joined text of the most recent text-bearing
response) is the empty string and some response did produce text, yet the
returned summary is the placeholder rather than that candidate value. -/
theorem summary_empty_text_placeholder_cx :
    (runAgent cxExecC9 cxRespC9).iteration_count = 2 ∧
    lastTextJoin cxRespC9 2 = some "" ∧
    textsOf (cxRespC9 0) ≠ [] ∧
    (runAgent cxExecC9 cxRespC9).summary ≠ "" ∧
    (runAgent cxExecC9 cxRespC9).summary = noSummaryText := by
  decide

/-- C9 as amended: throughout every run the summary candidate is the
newline-joined text of the most recent processed response containing at
least one text block (a later text-free response does not clear it and
text is never concatenated across iterations), and the returned summary is
that candidate when it is a non-empty string, and the fixed placeholder
otherwise — both when no response ever produced text and when the most
recent text-bearing response joins to the empty string. -/
theorem run_summary_last_write_wins (exec : ExecFn) (respAt : Nat → ModelResponse) :
    (runAgent exec respAt).summary =
      (if (lastTextJoin respAt ((runAgent exec respAt).iteration_count)).getD "" = "" then noSummaryText
       else (lastTextJoin respAt ((runAgent exec respAt).iteration_count)).getD "") := by
  show (if (agentLoop exec respAt MAX_ITERATIONS 0 "" []).2.1 = "" then noSummaryText
        else (agentLoop exec respAt MAX_ITERATIONS 0 "" []).2.1) = _
  have h0 : ((lastTextJoin respAt 0).getD "") = "" := rfl
  have hs := agentLoop_summary exec respAt MAX_ITERATIONS 0 []
  rw [h0] at hs
  rw [hs]
  rfl

/-! The sort-order reversal claim. -/

/-- C4 counterexample: the sort is stable, so two rows with equal sort
keys keep their original relative order under both `asc` and `desc`; on a
two-row tie the `desc` result is not the reverse of the `asc` result. -/
theorem sort_reverse_tie_cx :
    sortStep (some "K") "asc" rowsC4 = rowsC4 ∧
    sortStep (some "K") "desc" rowsC4 = rowsC4 ∧
    sortStep (some "K") "desc" rowsC4 ≠ (sortStep (some "K") "asc" rowsC4).reverse := by
  decide

/-- C4 as amended: for every `readRows` call with a truthy `sortBy` column,
over every list of data rows whose values in that column are pairwise
distinct, sorting with `sort_order` `'asc'` and sorting with `'desc'`
return the rows in exactly reverse order of one another (with ties the
stable sort keeps the original relative order in both directions instead). -/
theorem sort_asc_desc_reverse_of_distinct (c : String) (rows : List RowRec) (hc : c ≠ "")
    (hdist : rows.Pairwise fun a b => getVal a c ≠ getVal b c) :
    sortStep (some c) "desc" rows = (sortStep (some c) "asc" rows).reverse := by
  show (if c = "" then rows
        else if ("desc" : String) = "asc" then List.insertionSort (ascRel c) rows
        else List.insertionSort (descRel c) rows) =
    (if c = "" then rows
     else if ("asc" : String) = "asc" then List.insertionSort (ascRel c) rows
     else List.insertionSort (descRel c) rows).reverse
  rw [if_neg hc, if_neg (by decide : ¬ ("desc" : String) = "asc"), if_neg hc, if_pos rfl]
  haveI : IsTotal RowRec (ascRel c) := ⟨fun a b => le_total (sortKey c a) (sortKey c b)⟩
  haveI : IsTrans RowRec (ascRel c) := ⟨fun a b d h1 h2 => le_trans h1 h2⟩
  haveI : IsTotal RowRec (descRel c) := ⟨fun a b => le_total (sortKey c b) (sortKey c a)⟩
  haveI : IsTrans RowRec (descRel c) := ⟨fun a b d h1 h2 => le_trans h2 h1⟩
  have hstr : ∀ s1 s2 : String, s1.data = s2.data → s1 = s2 := by
    intro s1 s2 h
    cases s1
    cases s2
    simp_all
  have hkey : rows.Pairwise fun a b => sortKey c a ≠ sortKey c b :=
    hdist.imp (fun h he => h (hstr _ _ he))
  have hA : List.Pairwise (ascRel c) (List.insertionSort (ascRel c) rows) :=
    List.sorted_insertionSort (ascRel c) rows
  have hD : List.Pairwise (descRel c) (List.insertionSort (descRel c) rows) :=
    List.sorted_insertionSort (descRel c) rows
  have hkeyA : (List.insertionSort (ascRel c) rows).Pairwise (fun a b => sortKey c a ≠ sortKey c b) :=
    ((List.perm_insertionSort (ascRel c) rows).pairwise_iff (fun h => Ne.symm h)).mpr hkey
  have hkeyD : (List.insertionSort (descRel c) rows).Pairwise (fun a b => sortKey c a ≠ sortKey c b) :=
    ((List.perm_insertionSort (descRel c) rows).pairwise_iff (fun h => Ne.symm h)).mpr hkey
  have hA2 : (List.insertionSort (ascRel c) rows).Pairwise (fun a b => sortKey c a < sortKey c b) :=
    (hA.and hkeyA).imp (fun h => lt_of_le_of_ne h.1 h.2)
  have hD2 : (List.insertionSort (descRel c) rows).Pairwise (fun a b => sortKey c b < sortKey c a) :=
    (hD.and hkeyD).imp (fun h => lt_of_le_of_ne h.1 (Ne.symm h.2))
  have hrev : ((List.insertionSort (descRel c) rows).reverse).Pairwise
      (fun a b => sortKey c a < sortKey c b) :=
    List.pairwise_reverse.mpr hD2
  have hperm : (List.insertionSort (ascRel c) rows).Perm
      ((List.insertionSort (descRel c) rows).reverse) :=
    ((List.perm_insertionSort (ascRel c) rows).trans
      (List.perm_insertionSort (descRel c) rows).symm).trans
      (List.reverse_perm (List.insertionSort (descRel c) rows)).symm
  have heq : List.insertionSort (ascRel c) rows = (List.insertionSort (descRel c) rows).reverse :=
    @List.eq_of_perm_of_sorted RowRec (fun a b => sortKey c a < sortKey c b)
      ⟨fun a b h1 h2 => absurd h2 (lt_asymm h1)⟩ _ _ hperm hA2 hrev
  conv_rhs => rw [heq]
  rw [List.reverse_reverse]

/-- Witness for C4 as amended, on two rows with distinct sort keys. -/
theorem sort_asc_desc_reverse_of_distinct_witness :
    sortStep (some "K") "desc" rowsC4w = (sortStep (some "K") "asc" rowsC4w).reverse :=
  sort_asc_desc_reverse_of_distinct "K" rowsC4w (by decide) (by decide)

end AhpAgent
